import Mathlib

/-!
Shallow embedding of the extension-sync core of `src/core/Extension.ts`
(vscode-syncing).  Pure data flow is translated directly; every external
effect (temp files, HTTPS download, zip extraction, filesystem
read/write/remove) is represented by an oracle field of an `Effects`
record, and every function additionally returns the list of effect /
progress-indicator events it performs, in order, mirroring the promise
chains of the source.
-/

namespace VSCodeSyncing

/-- JavaScript truthiness of an optional string: `undefined` / `null` and
the empty string are falsy, every other string is truthy. -/
def truthy : Option String → Bool
  | none => false
  | some s => s != ""

/-- Mirror of `path.join` for the two-argument uses in the source. -/
def pathJoin (a b : String) : String := a ++ "/" ++ b

/-- Mirror of the `IExtension` interface of `Extension.ts`. -/
structure IExtension where
  id : String
  name : String
  publisher : String
  version : String
  __metadata : Option String := none
  zip : Option String := none
  path : Option String := none
deriving Repr, DecidableEq

/-- One entry of the host editor's live extension registry
(`vscode.extensions.all`); the fields are the `packageJSON` fields the
source reads. -/
structure VSCodeExtension where
  name : String
  publisher : String
  version : String
  isBuiltin : Bool := false
  __metadata : Option String := none
deriving Repr, DecidableEq

/-- The registry identifier `publisher.name` used by
`vscode.extensions.getExtension`. -/
def VSCodeExtension.id (e : VSCodeExtension) : String :=
  e.publisher ++ "." ++ e.name

/-- Mirror of `vscode.extensions.getExtension(id)` over an explicit
registry list. -/
def getExtension (reg : List VSCodeExtension) (id : String) :
    Option VSCodeExtension :=
  reg.find? (fun e => e.id == id)

/-- Mirror of `Extension.getAll` (line 140): list the installed,
non-builtin extensions, copying `__metadata` only when it is truthy. -/
def getAll (reg : List VSCodeExtension) (includeBuiltin : Bool := false) :
    List IExtension :=
  (reg.filter (fun e => includeBuiltin || !e.isBuiltin)).map (fun e =>
    { id := e.publisher ++ "." ++ e.name
      name := e.name
      publisher := e.publisher
      version := e.version
      __metadata := if truthy e.__metadata then e.__metadata else none })

/-- Result record of `_getDifferentExtensions`, with `total` the derived
getter `added.length + removed.length + updated.length`. -/
structure ExtensionDelta where
  added : List IExtension
  removed : List IExtension
  updated : List IExtension
deriving Repr, DecidableEq

def ExtensionDelta.total (d : ExtensionDelta) : Nat :=
  d.added.length + d.removed.length + d.updated.length

/-- One iteration of the first loop of `_getDifferentExtensions`
(lines 397-418): accumulates `(added, updated, reservedExtensionIDs)`. -/
def classifyStep (reg : List VSCodeExtension)
    (acc : List IExtension × List IExtension × List String)
    (ext : IExtension) :
    List IExtension × List IExtension × List String :=
  match acc with
  | (added, updated, reserved) =>
    match getExtension reg ext.id with
    | some localExtension =>
        if localExtension.version == ext.version then
          (added, updated, reserved ++ [ext.id])
        else
          (added, updated ++ [ext], reserved)
    | none => (added ++ [ext], updated, reserved)

/-- Mirror of `Extension._getDifferentExtensions` (lines 373-432).  The
`extensions` parameter is `Option`al because the source guards the whole
body with the truthiness test `if (extensions)`: a `null`/`undefined`
list leaves the result empty. -/
def _getDifferentExtensions (reg : List VSCodeExtension)
    (extensions : Option (List IExtension)) : ExtensionDelta :=
  match extensions with
  | none => { added := [], removed := [], updated := [] }
  | some exts =>
    match exts.foldl (classifyStep reg) ([], [], []) with
    | (added, updated, reserved) =>
      let localExtensions := getAll reg
      let removed :=
        localExtensions.filter (fun e => !(reserved.contains e.id))
      { added := added, removed := removed, updated := updated }

/-- Boolean test: the desired record has no installed extension with its
id (classified `added` by the differ). -/
def isAddedB (reg : List VSCodeExtension) (e : IExtension) : Bool :=
  (getExtension reg e.id).isNone

/-- Boolean test: an installed extension with this id exists but its
version string differs (classified `updated` by the differ). -/
def isUpdatedB (reg : List VSCodeExtension) (e : IExtension) : Bool :=
  match getExtension reg e.id with
  | some l => l.version != e.version
  | none => false

/-- Boolean test: an installed extension with this id exists with an
identical version string (the id is pushed to `reservedExtensionIDs`). -/
def isReservedB (reg : List VSCodeExtension) (e : IExtension) : Bool :=
  match getExtension reg e.id with
  | some l => l.version == e.version
  | none => false

/-- The ids the differ reserves, in order. -/
def reservedIds (reg : List VSCodeExtension) (exts : List IExtension) :
    List String :=
  (exts.filter (isReservedB reg)).map (fun e => e.id)

/-- Observable events of one sync pass: progress-indicator calls
(`Toast.showSpinner` / `Toast.clearSpinner`) and the external effects
the pipeline performs, in execution order. -/
inductive Event where
  | spinner (label : String) (steps : Nat) (total : Nat)
  | clearSpinner
  | tmpFile (id : String)
  | httpGet (id : String)
  | tmpDir (id : String)
  | extractZip (zipFilepath : String) (dirPath : String)
  | emptyDir (p : String)
  | copy (src : String) (dst : String)
  | readJson (p : String)
  | writeJson (p : String)
  | removeDir (p : String)
deriving Repr, DecidableEq

/-- Oracles for every external effect of the pipeline.  Success and
failure of the underlying I/O is decided by the oracle; the functions
below thread the results exactly as the source's promise chains do. -/
structure Effects where
  /-- `tmp.file` of `downloadExtension`: an error or the temp file path. -/
  tmpFile : IExtension → Except String String
  /-- the `https.get` + status check + streaming of `downloadExtension`. -/
  httpGet : IExtension → Except String Unit
  /-- `tmp.dir` of `extractExtension`: an error or the scratch dir path. -/
  tmpDir : IExtension → Except String String
  /-- `extractZip(zipFilepath, dir)`: an error message or success. -/
  extractZip : String → String → Except String Unit
  /-- `fs.emptyDir(extPath)`. -/
  emptyDir : String → Except String Unit
  /-- `fs.copy(src, dst)`. -/
  copy : String → String → Except String Unit
  /-- `fs.readJson(filepath)`: an error or the manifest content. -/
  readJson : String → Except String String
  /-- `fs.writeJson(filepath, content)`. -/
  writeJson : String → String → Except String Unit
  /-- the JavaScript object spread `{ ...packageJSON, __metadata: m }`. -/
  spreadMetadata : String → String → String
  /-- `fs.remove(p)` (used by `uninstallExtension` and the final
  `.obsolete` cleanup). -/
  removeDir : String → Except String Unit

/-- Mirror of `Extension.downloadExtension` (lines 227-268): allocate a
temp file, issue the gallery GET, and resolve with `zip` set to the temp
file path; any step failure rejects. -/
def downloadExtension (eff : Effects) (extension : IExtension) :
    List Event × Except String IExtension :=
  match eff.tmpFile extension with
  | Except.error err => ([Event.tmpFile extension.id], Except.error err)
  | Except.ok filepath =>
    match eff.httpGet extension with
    | Except.error e =>
        ([Event.tmpFile extension.id, Event.httpGet extension.id],
         Except.error e)
    | Except.ok _ =>
        ([Event.tmpFile extension.id, Event.httpGet extension.id],
         Except.ok { extension with zip := some filepath })

/-- The deterministic install location
`{extensionsPath}/{publisher}.{name}-{version}` (line 296). -/
def extPathOf (extensionsPath : String) (e : IExtension) : String :=
  pathJoin extensionsPath (e.publisher ++ "." ++ e.name ++ "-" ++ e.version)

/-- Mirror of `Extension.extractExtension` (lines 273-320): require a
truthy `zip` path, extract into a scratch dir, empty the target dir,
copy the inner `extension/` subtree, and resolve with `path` set. -/
def extractExtension (eff : Effects) (extensionsPath : String)
    (extension : IExtension) : List Event × Except String IExtension :=
  if truthy extension.zip then
    let zipFilepath := extension.zip.getD ""
    match eff.tmpDir extension with
    | Except.error _ =>
        ([Event.tmpDir extension.id],
         Except.error ("Cannot extract extension: " ++ extension.id ++
           ". Access temporary directory denied."))
    | Except.ok dirPath =>
      match eff.extractZip zipFilepath dirPath with
      | Except.error msg =>
          ([Event.tmpDir extension.id, Event.extractZip zipFilepath dirPath],
           Except.error ("Cannot extract extension: " ++ extension.id ++
             ". " ++ msg))
      | Except.ok _ =>
        let extPath := extPathOf extensionsPath extension
        match eff.emptyDir extPath with
        | Except.error msg =>
            ([Event.tmpDir extension.id,
              Event.extractZip zipFilepath dirPath, Event.emptyDir extPath],
             Except.error ("Cannot extract extension: " ++ extension.id ++
               ". " ++ msg))
        | Except.ok _ =>
          match eff.copy (pathJoin dirPath "extension") extPath with
          | Except.error msg =>
              ([Event.tmpDir extension.id,
                Event.extractZip zipFilepath dirPath, Event.emptyDir extPath,
                Event.copy (pathJoin dirPath "extension") extPath],
               Except.error ("Cannot extract extension: " ++ extension.id ++
                 ". " ++ msg))
          | Except.ok _ =>
              ([Event.tmpDir extension.id,
                Event.extractZip zipFilepath dirPath, Event.emptyDir extPath,
                Event.copy (pathJoin dirPath "extension") extPath],
               Except.ok { extension with path := some extPath })
  else
    ([], Except.error ("Cannot extract extension: " ++ extension.id ++
      ". Extension zip file not found."))

/-- Mirror of `Extension.updateMetadata` (lines 325-345): only when the
record is present and both `__metadata` and `path` are truthy does it
read and rewrite the installed `package.json`; otherwise it resolves
immediately, performing no filesystem operation. -/
def updateMetadata (eff : Effects) (extension : Option IExtension) :
    List Event × Except String Unit :=
  match extension with
  | some ext =>
    if truthy ext.__metadata && truthy ext.path then
      let filepath := pathJoin (ext.path.getD "") "package.json"
      match eff.readJson filepath with
      | Except.ok packageJSON =>
        match eff.writeJson filepath
            (eff.spreadMetadata packageJSON (ext.__metadata.getD "")) with
        | Except.ok _ =>
            ([Event.readJson filepath, Event.writeJson filepath],
             Except.ok ())
        | Except.error _ =>
            ([Event.readJson filepath, Event.writeJson filepath],
             Except.error ("Cannot update extension's metadata: " ++
               ext.id ++ "."))
      | Except.error _ =>
          ([Event.readJson filepath],
           Except.error ("Cannot update extension's metadata: " ++
             ext.id ++ "."))
    else ([], Except.ok ())
  | none => ([], Except.ok ())

/-- Mirror of `Extension.uninstallExtension` (lines 350-368): the version
to delete comes from the live registry when the id is still registered,
else from the record; `fs.remove` failure rejects, success resolves with
the record unchanged. -/
def uninstallExtension (eff : Effects) (reg : List VSCodeExtension)
    (extensionsPath : String) (extension : IExtension) :
    List Event × Except String IExtension :=
  let version :=
    match getExtension reg extension.id with
    | some localExtension => localExtension.version
    | none => extension.version
  let p := pathJoin extensionsPath
    (extension.publisher ++ "." ++ extension.name ++ "-" ++ version)
  match eff.removeDir p with
  | Except.ok _ => ([Event.removeDir p], Except.ok extension)
  | Except.error _ =>
      ([Event.removeDir p],
       Except.error ("Cannot uninstall extension: " ++ extension.id))

/-- Mirror of the `ISyncOptions` interface. -/
structure ISyncOptions where
  extensions : List IExtension
  progress : Nat
  total : Nat
  showIndicator : Bool := false

/-- The `Toast.showSpinner(label, steps, total)` call guarded by
`if (showIndicator)`. -/
def spinnerIf (showIndicator : Bool) (label : String) (steps total : Nat) :
    List Event :=
  if showIndicator then [Event.spinner label steps total] else []

/-- One item of the `_addExtensions` loop (lines 447-478): spinner,
download, spinner, extract, metadata patch; the `.catch` turns any
rejection into `false` (the item goes to `addedErrors`). -/
def addOne (eff : Effects) (extensionsPath : String) (showIndicator : Bool)
    (total : Nat) (steps : Nat) (item : IExtension) : List Event × Bool :=
  let ev0 := spinnerIf showIndicator
    ("Syncing: Downloading extension: " ++ item.id) steps total
  match downloadExtension eff item with
  | (t1, Except.error _) => (ev0 ++ t1, false)
  | (t1, Except.ok extension) =>
    let ev1 := spinnerIf showIndicator
      ("Syncing: Installing extension: " ++ item.id) steps total
    match extractExtension eff extensionsPath extension with
    | (t2, Except.error _) => (ev0 ++ t1 ++ ev1 ++ t2, false)
    | (t2, Except.ok extension2) =>
      match updateMetadata eff (some extension2) with
      | (t3, Except.error _) => (ev0 ++ t1 ++ ev1 ++ t2 ++ t3, false)
      | (t3, Except.ok _) => (ev0 ++ t1 ++ ev1 ++ t2 ++ t3, true)

/-- One item of the `_updateExtensions` loop (lines 501-540): spinner,
download, spinner, uninstall the outdated copy, spinner, extract,
metadata patch. -/
def updateOne (eff : Effects) (reg : List VSCodeExtension)
    (extensionsPath : String) (showIndicator : Bool)
    (total : Nat) (steps : Nat) (item : IExtension) : List Event × Bool :=
  let ev0 := spinnerIf showIndicator
    ("Syncing: Downloading extension: " ++ item.id) steps total
  match downloadExtension eff item with
  | (t1, Except.error _) => (ev0 ++ t1, false)
  | (t1, Except.ok extension) =>
    let ev1 := spinnerIf showIndicator
      ("Syncing: Removing outdated extension: " ++ item.id) steps total
    match uninstallExtension eff reg extensionsPath extension with
    | (t2, Except.error _) => (ev0 ++ t1 ++ ev1 ++ t2, false)
    | (t2, Except.ok extension2) =>
      let ev2 := spinnerIf showIndicator
        ("Syncing: Installing extension: " ++ item.id) steps total
      match extractExtension eff extensionsPath extension2 with
      | (t3, Except.error _) => (ev0 ++ t1 ++ ev1 ++ t2 ++ ev2 ++ t3, false)
      | (t3, Except.ok extension3) =>
        match updateMetadata eff (some extension3) with
        | (t4, Except.error _) =>
            (ev0 ++ t1 ++ ev1 ++ t2 ++ ev2 ++ t3 ++ t4, false)
        | (t4, Except.ok _) =>
            (ev0 ++ t1 ++ ev1 ++ t2 ++ ev2 ++ t3 ++ t4, true)

/-- One item of the `_removeExtensions` loop (lines 563-580): spinner,
uninstall. -/
def removeOne (eff : Effects) (reg : List VSCodeExtension)
    (extensionsPath : String) (showIndicator : Bool)
    (total : Nat) (steps : Nat) (item : IExtension) : List Event × Bool :=
  let ev0 := spinnerIf showIndicator
    ("Syncing: Uninstalling extension: " ++ item.id) steps total
  match uninstallExtension eff reg extensionsPath item with
  | (t, Except.ok _) => (ev0 ++ t, true)
  | (t, Except.error _) => (ev0 ++ t, false)

/-- Mirror of the `async.eachSeries` accumulation pattern shared by the
three batch functions: process the items one at a time in list order,
pre-incrementing the shared `steps` counter once per item, and append
each item to the success or error list according to its handler's
outcome. -/
def eachSeries (handler : Nat → IExtension → List Event × Bool) :
    List IExtension → Nat → List IExtension × List IExtension →
    List Event × (List IExtension × List IExtension)
  | [], _, acc => ([], acc)
  | item :: rest, steps, (succ, errs) =>
    let steps1 := steps + 1
    match handler steps1 item with
    | (ev, ok) =>
      let acc1 := if ok then (succ ++ [item], errs) else (succ, errs ++ [item])
      match eachSeries handler rest steps1 acc1 with
      | (evs, r) => (ev ++ evs, r)

/-- Mirror of `Extension._addExtensions` (lines 437-486); the first list
of the result is `added`, the second `addedErrors`. -/
def _addExtensions (eff : Effects) (extensionsPath : String)
    (options : ISyncOptions) :
    List Event × (List IExtension × List IExtension) :=
  eachSeries (addOne eff extensionsPath options.showIndicator options.total)
    options.extensions options.progress ([], [])

/-- Mirror of `Extension._updateExtensions` (lines 491-548); the first
list of the result is `updated`, the second `updatedErrors`. -/
def _updateExtensions (eff : Effects) (reg : List VSCodeExtension)
    (extensionsPath : String) (options : ISyncOptions) :
    List Event × (List IExtension × List IExtension) :=
  eachSeries
    (updateOne eff reg extensionsPath options.showIndicator options.total)
    options.extensions options.progress ([], [])

/-- Mirror of `Extension._removeExtensions` (lines 553-588); the first
list of the result is `removed`, the second `removedErrors`. -/
def _removeExtensions (eff : Effects) (reg : List VSCodeExtension)
    (extensionsPath : String) (options : ISyncOptions) :
    List Event × (List IExtension × List IExtension) :=
  eachSeries
    (removeOne eff reg extensionsPath options.showIndicator options.total)
    options.extensions options.progress ([], [])

/-- The six lists of `ISyncStatus.extension` merged by `sync`. -/
structure SyncReport where
  added : List IExtension
  addedErrors : List IExtension
  updated : List IExtension
  updatedErrors : List IExtension
  removed : List IExtension
  removedErrors : List IExtension
deriving Repr, DecidableEq

/-- Mirror of `Extension.sync` (lines 169-222): diff, then the three
batches strictly in sequence with progress offsets `0`, `added.length`
and `added.length + updated.length` against the shared `total`, then
`Toast.clearSpinner` when the indicator is shown, then the best-effort
removal of the `.obsolete` marker whose failure is swallowed — the same
merged report is resolved on both branches. -/
def sync (eff : Effects) (reg : List VSCodeExtension)
    (extensionsPath : String) (extensions : Option (List IExtension))
    (showIndicator : Bool := false) : List Event × SyncReport :=
  let d := _getDifferentExtensions reg extensions
  let ra := _addExtensions eff extensionsPath
    { extensions := d.added, progress := 0, total := d.total,
      showIndicator := showIndicator }
  let ru := _updateExtensions eff reg extensionsPath
    { extensions := d.updated, progress := d.added.length,
      total := d.total, showIndicator := showIndicator }
  let rr := _removeExtensions eff reg extensionsPath
    { extensions := d.removed,
      progress := d.added.length + d.updated.length,
      total := d.total, showIndicator := showIndicator }
  let clearEv := if showIndicator then [Event.clearSpinner] else []
  let obsolete := pathJoin extensionsPath ".obsolete"
  let report : SyncReport :=
    { added := ra.2.1, addedErrors := ra.2.2,
      updated := ru.2.1, updatedErrors := ru.2.2,
      removed := rr.2.1, removedErrors := rr.2.2 }
  match eff.removeDir obsolete with
  | Except.ok _ =>
      (ra.1 ++ ru.1 ++ rr.1 ++ clearEv ++ [Event.removeDir obsolete],
       report)
  | Except.error _ =>
      (ra.1 ++ ru.1 ++ rr.1 ++ clearEv ++ [Event.removeDir obsolete],
       report)

/-- Success of the add pipeline for one record: download, then extract,
then metadata patch must all resolve. -/
def addSucceeds (eff : Effects) (extensionsPath : String)
    (item : IExtension) : Bool :=
  match (downloadExtension eff item).2 with
  | Except.error _ => false
  | Except.ok e1 =>
    match (extractExtension eff extensionsPath e1).2 with
    | Except.error _ => false
    | Except.ok e2 =>
      match (updateMetadata eff (some e2)).2 with
      | Except.ok _ => true
      | Except.error _ => false

/-- Success of the update pipeline for one record: download, uninstall,
extract, metadata patch must all resolve. -/
def updSucceeds (eff : Effects) (reg : List VSCodeExtension)
    (extensionsPath : String) (item : IExtension) : Bool :=
  match (downloadExtension eff item).2 with
  | Except.error _ => false
  | Except.ok e1 =>
    match (uninstallExtension eff reg extensionsPath e1).2 with
    | Except.error _ => false
    | Except.ok e2 =>
      match (extractExtension eff extensionsPath e2).2 with
      | Except.error _ => false
      | Except.ok e3 =>
        match (updateMetadata eff (some e3)).2 with
        | Except.ok _ => true
        | Except.error _ => false

/-- Success of the remove pipeline for one record: the single uninstall
must resolve. -/
def remSucceeds (eff : Effects) (reg : List VSCodeExtension)
    (extensionsPath : String) (item : IExtension) : Bool :=
  match (uninstallExtension eff reg extensionsPath item).2 with
  | Except.ok _ => true
  | Except.error _ => false

/-- The `steps` arguments of the spinner events of a trace, in order. -/
def spinnerSteps : List Event → List Nat
  | [] => []
  | Event.spinner _ s _ :: t => s :: spinnerSteps t
  | _ :: t => spinnerSteps t

/-- With per-record spinner counts `cs` and starting offset `p`, the
step sequence a batch reports: each record repeats its own (already
incremented) counter value once per sub-step spinner. -/
def expectedSteps : List Nat → Nat → List Nat
  | [], _ => []
  | c :: rest, p => List.replicate c (p + 1) ++ expectedSteps rest (p + 1)

/-- Collapse consecutive duplicates of a step sequence: the distinct
values of the reported progress, in order of first appearance. -/
def compress : List Nat → List Nat
  | [] => []
  | [a] => [a]
  | a :: b :: t => if a = b then compress (b :: t) else a :: compress (b :: t)

/-- Number of spinner events the add pipeline shows for one record: one
before the download and a second one only once the download resolved. -/
def addSpinCount (eff : Effects) (item : IExtension) : Nat :=
  match (downloadExtension eff item).2 with
  | Except.ok _ => 2
  | Except.error _ => 1

/-- Number of spinner events the update pipeline shows for one record. -/
def updSpinCount (eff : Effects) (reg : List VSCodeExtension)
    (extensionsPath : String) (item : IExtension) : Nat :=
  match (downloadExtension eff item).2 with
  | Except.error _ => 1
  | Except.ok e1 =>
    match (uninstallExtension eff reg extensionsPath e1).2 with
    | Except.error _ => 2
    | Except.ok _ => 3

/-- Concatenation of per-record traces in input order, threading the
shared pre-incremented step counter — the observable shape of one
sequential batch. -/
def traceOfBatch (f : Nat → IExtension → List Event) :
    List IExtension → Nat → List Event
  | [], _ => []
  | item :: rest, p => f (p + 1) item ++ traceOfBatch f rest (p + 1)

/-- Concrete registry of the spec's worked scenario: one installed
extension `a.x` at version `1.0`. -/
def axInstalled : VSCodeExtension :=
  { name := "x", publisher := "a", version := "1.0" }

def regScenario : List VSCodeExtension := [axInstalled]

/-- Desired record `a.x` at version `2.0`. -/
def axNew : IExtension :=
  { id := "a.x", name := "x", publisher := "a", version := "2.0" }

/-- Desired record `b.y` at version `1.0`. -/
def byNew : IExtension :=
  { id := "b.y", name := "y", publisher := "b", version := "1.0" }

/-- The record `getAll regScenario` yields for the installed `a.x`. -/
def axLocal : IExtension :=
  { id := "a.x", name := "x", publisher := "a", version := "1.0" }

def desiredScenario : List IExtension := [axNew, byNew]

/-- Oracle on which every external effect succeeds. -/
def effOk : Effects :=
  { tmpFile := fun e => Except.ok ("/tmp/" ++ e.id ++ ".zip")
    httpGet := fun _ => Except.ok ()
    tmpDir := fun e => Except.ok ("/tmp/dir." ++ e.id)
    extractZip := fun _ _ => Except.ok ()
    emptyDir := fun _ => Except.ok ()
    copy := fun _ _ => Except.ok ()
    readJson := fun _ => Except.ok "packageJSON"
    writeJson := fun _ _ => Except.ok ()
    spreadMetadata := fun p m => p ++ "#" ++ m
    removeDir := fun _ => Except.ok () }

/-- Oracle on which every manifest read fails (and everything else
succeeds): download and install succeed but the metadata patch of a
record carrying a truthy metadata blob rejects. -/
def effBadManifest : Effects :=
  { effOk with readJson := fun _ => Except.error "EACCES" }

/-- Oracle on which exactly the gallery request for `b.y` and the
directory removal of `b.y-1.0` fail. -/
def effIsolation : Effects :=
  { effOk with
      httpGet := fun e =>
        if e.id == "b.y" then Except.error "statusCode 404"
        else Except.ok ()
      removeDir := fun p =>
        if p == "/ext/b.y-1.0" then Except.error "EPERM"
        else Except.ok () }

/-- Desired record `a.x` at version `2.0` carrying a metadata blob. -/
def axNewMeta : IExtension := { axNew with __metadata := some "m" }

/-- The record `a.x@2.0` after a successful download under `effOk` or
`effBadManifest`. -/
def axNewMetaZip : IExtension :=
  { axNewMeta with zip := some "/tmp/a.x.zip" }

/-- The record `a.x@2.0` after a successful download and install into
the extensions root `/ext`. -/
def axNewMetaInstalled : IExtension :=
  { axNewMetaZip with path := some "/ext/a.x-2.0" }

/-- Closed form of the first loop of `_getDifferentExtensions`: the
accumulated `added`, `updated` and `reservedExtensionIDs` are the three
classifying filters of the desired list, appended to the incoming
accumulators in input order. -/
theorem foldl_classifyStep (reg : List VSCodeExtension)
    (l : List IExtension) (a u : List IExtension) (r : List String) :
    l.foldl (classifyStep reg) (a, u, r) =
      (a ++ l.filter (isAddedB reg), u ++ l.filter (isUpdatedB reg),
       r ++ (l.filter (isReservedB reg)).map (fun e => e.id)) := by
  induction l generalizing a u r with
  | nil => simp
  | cons head tail ih =>
    simp only [List.foldl_cons]
    cases hg : getExtension reg head.id with
    | none =>
      have hstep : classifyStep reg (a, u, r) head = (a ++ [head], u, r) := by
        simp [classifyStep, hg]
      rw [hstep, ih]
      simp [isAddedB, isUpdatedB, isReservedB, List.filter_cons, hg]
    | some lext =>
      cases hv : lext.version == head.version with
      | true =>
        have hveq : lext.version = head.version := eq_of_beq hv
        have hstep : classifyStep reg (a, u, r) head
            = (a, u, r ++ [head.id]) := by
          simp [classifyStep, hg, hv]
        rw [hstep, ih]
        simp [isAddedB, isUpdatedB, isReservedB, List.filter_cons, hg, hv,
          hveq]
      | false =>
        have hvne : lext.version ≠ head.version := by
          simpa using hv
        have hstep : classifyStep reg (a, u, r) head
            = (a, u ++ [head], r) := by
          simp [classifyStep, hg, hv]
        rw [hstep, ih]
        simp [isAddedB, isUpdatedB, isReservedB, List.filter_cons, hg, hv,
          hvne]

/-- Closed form of the whole differ on a present desired list. -/
theorem getDifferentExtensions_eq (reg : List VSCodeExtension)
    (exts : List IExtension) :
    _getDifferentExtensions reg (some exts) =
      { added := exts.filter (isAddedB reg)
        removed := (getAll reg).filter
          (fun e => !((reservedIds reg exts).contains e.id))
        updated := exts.filter (isUpdatedB reg) } := by
  simp [_getDifferentExtensions, foldl_classifyStep, reservedIds]

/-- Every record produced by `getAll` has a registered extension with
its id, because it was built from a registry entry. -/
theorem mem_getAll_getExtension_isSome (reg : List VSCodeExtension)
    (b : Bool) (e : IExtension) (h : e ∈ getAll reg b) :
    (getExtension reg e.id).isSome = true := by
  simp only [getAll, List.mem_map, List.mem_filter] at h
  obtain ⟨x, ⟨hx, _⟩, rfl⟩ := h
  simp only [getExtension]
  rw [List.find?_isSome]
  exact ⟨x, hx, by simp [VSCodeExtension.id]⟩

/-- C1 — counterexample.  With installed `a.x@1.0` and desired
`[a.x@2.0, b.y@1.0]`, the differ classifies `a.x@2.0` as updated but
also emits the local record `a.x@1.0` as removed, because only
same-version ids are reserved: the id `a.x` occurs in two of the three
output lists and `removed` contains an id that is present in the
desired list, refuting the claimed partition. -/
theorem diff_partition_cex :
    (_getDifferentExtensions regScenario (some desiredScenario)).updated
      = [axNew] ∧
    (_getDifferentExtensions regScenario (some desiredScenario)).removed
      = [axLocal] ∧
    axLocal.id = "a.x" ∧ axNew.id = "a.x" ∧ axNew ∈ desiredScenario := by
  decide

/-- C1 (amended): `added` is exactly the desired records with no locally
installed id, `updated` exactly the desired records installed with a
differing version, every desired record is added, updated or reserved,
and `added` shares no id with `updated` or `removed`; but `removed` is
every non-builtin installed record whose id is not reserved — ids absent
from the desired list or present with a differing version — so an
updated id also appears in `removed`. -/
theorem diff_partition_amended (reg : List VSCodeExtension)
    (exts : List IExtension) :
    (_getDifferentExtensions reg (some exts)).added
      = exts.filter (isAddedB reg) ∧
    (_getDifferentExtensions reg (some exts)).updated
      = exts.filter (isUpdatedB reg) ∧
    (_getDifferentExtensions reg (some exts)).removed
      = (getAll reg).filter
          (fun e => !((reservedIds reg exts).contains e.id)) ∧
    (∀ e ∈ exts, isAddedB reg e = true ∨ isUpdatedB reg e = true ∨
      isReservedB reg e = true) ∧
    (∀ a ∈ (_getDifferentExtensions reg (some exts)).added,
      ∀ u ∈ (_getDifferentExtensions reg (some exts)).updated,
        a.id ≠ u.id) ∧
    (∀ a ∈ (_getDifferentExtensions reg (some exts)).added,
      ∀ r ∈ (_getDifferentExtensions reg (some exts)).removed,
        a.id ≠ r.id) := by
  rw [getDifferentExtensions_eq]
  refine ⟨rfl, rfl, rfl, ?_, ?_, ?_⟩
  · intro e _
    unfold isAddedB isUpdatedB isReservedB
    cases hg : getExtension reg e.id with
    | none => simp
    | some l =>
      cases hv : l.version == e.version with
      | true => simp [hv]
      | false =>
        simp only [hv]
        simp
        simpa using hv
  · intro a ha u hu heq
    rw [List.mem_filter] at ha hu
    have h1 : (getExtension reg a.id).isNone = true := ha.2
    have h2 := hu.2
    unfold isUpdatedB at h2
    rw [heq] at h1
    cases hg : getExtension reg u.id with
    | none => rw [hg] at h2; simp at h2
    | some l => rw [hg] at h1; simp at h1
  · intro a ha r hr heq
    rw [List.mem_filter] at ha hr
    have h1 : (getExtension reg a.id).isNone = true := ha.2
    have h2 : (getExtension reg r.id).isSome = true :=
      mem_getAll_getExtension_isSome reg false r hr.1
    rw [heq] at h1
    cases hg : getExtension reg r.id with
    | none => rw [hg] at h2; simp at h2
    | some l => rw [hg] at h1; simp at h1

/-- C2 — counterexample.  On the claimed scenario the differ does not
return `removed = []` and `total = 2`: the local record `a.x@1.0` is
classified removed as well, making `total = 3`. -/
theorem diff_scenario_cex :
    (_getDifferentExtensions regScenario (some desiredScenario)).total = 3 ∧
    (_getDifferentExtensions regScenario (some desiredScenario)).removed
      ≠ [] := by
  decide

/-- C2 (amended): on installed `[a.x@1.0]` and desired
`[a.x@2.0, b.y@1.0]` the differ returns `added = [b.y@1.0]`,
`updated = [a.x@2.0]`, `removed = [a.x@1.0]` and `total = 3`. -/
theorem diff_scenario_amended :
    _getDifferentExtensions regScenario (some desiredScenario) =
      { added := [byNew], removed := [axLocal], updated := [axNew] } ∧
    (_getDifferentExtensions regScenario (some desiredScenario)).total
      = 3 := by
  decide

/-- C4 — counterexample.  An absent (`null`/`undefined`) desired list is
not treated like an empty list: with one installed extension the differ
returns the empty delta (`removed = []`) for the absent list, while the
empty list yields `removed = [a.x@1.0]`. -/
theorem diff_absent_cex :
    _getDifferentExtensions regScenario none =
      { added := [], removed := [], updated := [] } ∧
    getAll regScenario = [axLocal] ∧
    (_getDifferentExtensions regScenario (some [])).removed
      = [axLocal] := by
  decide

/-- C4 (amended): an absent desired list short-circuits the differ to
the empty delta — nothing added, updated or removed — whereas only an
empty (non-null) desired list removes all installed extensions. -/
theorem diff_absent_amended (reg : List VSCodeExtension) :
    _getDifferentExtensions reg none =
      { added := [], removed := [], updated := [] } ∧
    (_getDifferentExtensions reg (some [])).removed = getAll reg := by
  refine ⟨rfl, ?_⟩
  rw [getDifferentExtensions_eq]
  simp [reservedIds]

/-- C5: diff against an empty desired list removes exactly the installed
(non-builtin) list and adds/updates nothing, and diff of any desired
list against an empty registry adds exactly the desired list and
updates/removes nothing. -/
theorem diff_empty_cases (reg : List VSCodeExtension)
    (desired : List IExtension) :
    _getDifferentExtensions reg (some []) =
      { added := [], removed := getAll reg, updated := [] } ∧
    _getDifferentExtensions [] (some desired) =
      { added := desired, removed := [], updated := [] } := by
  constructor
  · rw [getDifferentExtensions_eq]
    simp [reservedIds]
  · rw [getDifferentExtensions_eq]
    simp [getAll, isAddedB, isUpdatedB, getExtension]

/-- Success/error accumulation of the shared batch loop: when the
handler's outcome does not depend on the step counter, the loop appends
to the incoming accumulators the input-order filters by outcome. -/
theorem eachSeries_snd (handler : Nat → IExtension → List Event × Bool)
    (ok : IExtension → Bool) (hok : ∀ s i, (handler s i).2 = ok i) :
    ∀ (l : List IExtension) (p : Nat) (s0 e0 : List IExtension),
    (eachSeries handler l p (s0, e0)).2 =
      (s0 ++ l.filter ok, e0 ++ l.filter (fun i => !(ok i))) := by
  intro l
  induction l with
  | nil => intro p s0 e0; simp [eachSeries]
  | cons item rest ih =>
    intro p s0 e0
    simp only [eachSeries]
    cases hh : handler (p + 1) item with
    | mk ev okv =>
      have hv : okv = ok item := by rw [← hok (p + 1) item, hh]
      subst hv
      cases hcase : ok item with
      | true =>
        simp only [hcase, if_pos]
        rw [ih]
        simp [List.filter_cons, hcase]
      | false =>
        simp only [hcase]
        rw [if_neg (by simp)]
        rw [ih]
        simp [List.filter_cons, hcase]

/-- Trace of the shared batch loop: the concatenation of the per-record
handler traces in input order with the pre-incremented step counter,
independent of the accumulators. -/
theorem eachSeries_fst (handler : Nat → IExtension → List Event × Bool) :
    ∀ (l : List IExtension) (p : Nat)
      (acc : List IExtension × List IExtension),
    (eachSeries handler l p acc).1 =
      traceOfBatch (fun s i => (handler s i).1) l p := by
  intro l
  induction l with
  | nil => intro p acc; cases acc; simp [eachSeries, traceOfBatch]
  | cons item rest ih =>
    intro p acc
    cases acc with
    | mk s0 e0 =>
      simp only [eachSeries, traceOfBatch]
      cases hh : handler (p + 1) item with
      | mk ev okv =>
        simp only []
        rw [ih]

/-- The outcome of one add-pipeline record does not depend on the
progress counter or the indicator flag. -/
theorem addOne_snd (eff : Effects) (extensionsPath : String)
    (sh : Bool) (tot s : Nat) (item : IExtension) :
    (addOne eff extensionsPath sh tot s item).2
      = addSucceeds eff extensionsPath item := by
  unfold addOne addSucceeds
  cases hd : downloadExtension eff item with
  | mk t1 r1 =>
    cases r1 with
    | error e => simp
    | ok e1 =>
      cases hx : extractExtension eff extensionsPath e1 with
      | mk t2 r2 =>
        cases r2 with
        | error e => simp [hx]
        | ok e2 =>
          cases hm : updateMetadata eff (some e2) with
          | mk t3 r3 => cases r3 <;> simp [hx, hm]

/-- The outcome of one update-pipeline record does not depend on the
progress counter or the indicator flag. -/
theorem updateOne_snd (eff : Effects) (reg : List VSCodeExtension)
    (extensionsPath : String) (sh : Bool) (tot s : Nat)
    (item : IExtension) :
    (updateOne eff reg extensionsPath sh tot s item).2
      = updSucceeds eff reg extensionsPath item := by
  unfold updateOne updSucceeds
  cases hd : downloadExtension eff item with
  | mk t1 r1 =>
    cases r1 with
    | error e => simp
    | ok e1 =>
      cases hu : uninstallExtension eff reg extensionsPath e1 with
      | mk t2 r2 =>
        cases r2 with
        | error e => simp [hu]
        | ok e2 =>
          cases hx : extractExtension eff extensionsPath e2 with
          | mk t3 r3 =>
            cases r3 with
            | error e => simp [hu, hx]
            | ok e3 =>
              cases hm : updateMetadata eff (some e3) with
              | mk t4 r4 => cases r4 <;> simp [hu, hx, hm]

/-- The outcome of one remove-pipeline record does not depend on the
progress counter or the indicator flag. -/
theorem removeOne_snd (eff : Effects) (reg : List VSCodeExtension)
    (extensionsPath : String) (sh : Bool) (tot s : Nat)
    (item : IExtension) :
    (removeOne eff reg extensionsPath sh tot s item).2
      = remSucceeds eff reg extensionsPath item := by
  unfold removeOne remSucceeds
  cases hu : uninstallExtension eff reg extensionsPath item with
  | mk t r => cases r <;> simp

/-- Closed form of `_addExtensions`: `added` and `addedErrors` are the
input-order filters of the batch by pipeline success. -/
theorem addExtensions_snd (eff : Effects) (extensionsPath : String)
    (opts : ISyncOptions) :
    (_addExtensions eff extensionsPath opts).2 =
      (opts.extensions.filter (addSucceeds eff extensionsPath),
       opts.extensions.filter
         (fun i => !(addSucceeds eff extensionsPath i))) := by
  unfold _addExtensions
  rw [eachSeries_snd _ (addSucceeds eff extensionsPath)
    (fun s i => addOne_snd eff extensionsPath opts.showIndicator
      opts.total s i)]
  simp

/-- Closed form of `_updateExtensions`. -/
theorem updateExtensions_snd (eff : Effects) (reg : List VSCodeExtension)
    (extensionsPath : String) (opts : ISyncOptions) :
    (_updateExtensions eff reg extensionsPath opts).2 =
      (opts.extensions.filter (updSucceeds eff reg extensionsPath),
       opts.extensions.filter
         (fun i => !(updSucceeds eff reg extensionsPath i))) := by
  unfold _updateExtensions
  rw [eachSeries_snd _ (updSucceeds eff reg extensionsPath)
    (fun s i => updateOne_snd eff reg extensionsPath opts.showIndicator
      opts.total s i)]
  simp

/-- Closed form of `_removeExtensions`. -/
theorem removeExtensions_snd (eff : Effects) (reg : List VSCodeExtension)
    (extensionsPath : String) (opts : ISyncOptions) :
    (_removeExtensions eff reg extensionsPath opts).2 =
      (opts.extensions.filter (remSucceeds eff reg extensionsPath),
       opts.extensions.filter
         (fun i => !(remSucceeds eff reg extensionsPath i))) := by
  unfold _removeExtensions
  rw [eachSeries_snd _ (remSucceeds eff reg extensionsPath)
    (fun s i => removeOne_snd eff reg extensionsPath opts.showIndicator
      opts.total s i)]
  simp

/-- Complementary filters split a list's length. -/
theorem length_filter_partition {α : Type} (p : α → Bool) (l : List α) :
    (l.filter p).length + (l.filter (fun a => !(p a))).length
      = l.length := by
  induction l with
  | nil => simp
  | cons a t ih =>
    cases h : p a <;> simp [List.filter_cons, h] <;> omega

/-- Complementary filters split every element's multiplicity. -/
theorem count_filter_partition {α : Type} [DecidableEq α]
    (p : α → Bool) (l : List α) (a : α) :
    (l.filter p).count a + (l.filter (fun x => !(p x))).count a
      = l.count a := by
  induction l with
  | nil => simp
  | cons b t ih =>
    cases h : p b <;>
      cases hb : b == a <;>
        simp [List.filter_cons, h, List.count_cons, hb] <;>
          omega

/-- C6: when exactly one record of an add batch fails its pipeline and
exactly one record of a remove batch fails its uninstall, each batch
still processes every record: the success list holds the other N-1
records, the error list holds exactly 1, and every input record's
multiplicity is preserved across the two lists. -/
theorem batch_failure_isolation (eff : Effects)
    (reg : List VSCodeExtension) (extensionsPath : String)
    (optsA optsR : ISyncOptions)
    (hA : (optsA.extensions.filter
      (fun i => !(addSucceeds eff extensionsPath i))).length = 1)
    (hR : (optsR.extensions.filter
      (fun i => !(remSucceeds eff reg extensionsPath i))).length = 1) :
    ((_addExtensions eff extensionsPath optsA).2.1.length
        = optsA.extensions.length - 1 ∧
      (_addExtensions eff extensionsPath optsA).2.2.length = 1 ∧
      ∀ i : IExtension,
        (_addExtensions eff extensionsPath optsA).2.1.count i +
          (_addExtensions eff extensionsPath optsA).2.2.count i
          = optsA.extensions.count i) ∧
    ((_removeExtensions eff reg extensionsPath optsR).2.1.length
        = optsR.extensions.length - 1 ∧
      (_removeExtensions eff reg extensionsPath optsR).2.2.length = 1 ∧
      ∀ i : IExtension,
        (_removeExtensions eff reg extensionsPath optsR).2.1.count i +
          (_removeExtensions eff reg extensionsPath optsR).2.2.count i
          = optsR.extensions.count i) := by
  have hpartA := length_filter_partition
    (addSucceeds eff extensionsPath) optsA.extensions
  have hpartR := length_filter_partition
    (remSucceeds eff reg extensionsPath) optsR.extensions
  have eA1 : (_addExtensions eff extensionsPath optsA).2.1
      = optsA.extensions.filter (addSucceeds eff extensionsPath) := by
    rw [addExtensions_snd]
  have eA2 : (_addExtensions eff extensionsPath optsA).2.2
      = optsA.extensions.filter
          (fun i => !(addSucceeds eff extensionsPath i)) := by
    rw [addExtensions_snd]
  have eR1 : (_removeExtensions eff reg extensionsPath optsR).2.1
      = optsR.extensions.filter (remSucceeds eff reg extensionsPath) := by
    rw [removeExtensions_snd]
  have eR2 : (_removeExtensions eff reg extensionsPath optsR).2.2
      = optsR.extensions.filter
          (fun i => !(remSucceeds eff reg extensionsPath i)) := by
    rw [removeExtensions_snd]
  rw [eA1, eA2, eR1, eR2]
  refine ⟨⟨by omega, hA, ?_⟩, by omega, hR, ?_⟩
  · intro i
    exact count_filter_partition (addSucceeds eff extensionsPath)
      optsA.extensions i
  · intro i
    exact count_filter_partition (remSucceeds eff reg extensionsPath)
      optsR.extensions i

/-- Add batch of three records of which exactly `b.y` fails to fetch
under `effIsolation`. -/
def optsAddW : ISyncOptions :=
  { extensions := [axNew, byNew, axLocal], progress := 0, total := 3 }

/-- Remove batch of two records of which exactly `b.y` fails to
uninstall under `effIsolation` (empty live registry, so the version is
taken from the records). -/
def optsRemW : ISyncOptions :=
  { extensions := [axNew, byNew], progress := 0, total := 2 }

theorem batch_failure_isolation_witness :
    ((optsAddW.extensions.filter
        (fun i => !(addSucceeds effIsolation "/ext" i))).length = 1 ∧
      (optsRemW.extensions.filter
        (fun i => !(remSucceeds effIsolation [] "/ext" i))).length = 1) ∧
    (((_addExtensions effIsolation "/ext" optsAddW).2.1.length
        = optsAddW.extensions.length - 1 ∧
      (_addExtensions effIsolation "/ext" optsAddW).2.2.length = 1 ∧
      ∀ i : IExtension,
        (_addExtensions effIsolation "/ext" optsAddW).2.1.count i +
          (_addExtensions effIsolation "/ext" optsAddW).2.2.count i
          = optsAddW.extensions.count i) ∧
    ((_removeExtensions effIsolation [] "/ext" optsRemW).2.1.length
        = optsRemW.extensions.length - 1 ∧
      (_removeExtensions effIsolation [] "/ext" optsRemW).2.2.length = 1 ∧
      ∀ i : IExtension,
        (_removeExtensions effIsolation [] "/ext" optsRemW).2.1.count i +
          (_removeExtensions effIsolation [] "/ext" optsRemW).2.2.count i
          = optsRemW.extensions.count i)) :=
  ⟨⟨by decide, by decide⟩,
   batch_failure_isolation effIsolation [] "/ext" optsAddW optsRemW
     (by decide) (by decide)⟩

/-- C3 — counterexample.  Under an oracle whose manifest reads fail,
the record `a.x@2.0` (carrying a metadata blob) downloads and installs
successfully, its metadata patch rejects, and `_addExtensions` reports
it in `addedErrors`, not in `added` — refuting the claim that such a
record is still counted as a success. -/
theorem metadata_failure_cex :
    (downloadExtension effBadManifest axNewMeta).2
      = Except.ok axNewMetaZip ∧
    (extractExtension effBadManifest "/ext" axNewMetaZip).2
      = Except.ok axNewMetaInstalled ∧
    (updateMetadata effBadManifest (some axNewMetaInstalled)).2
      = Except.error "Cannot update extension's metadata: a.x." ∧
    (_addExtensions effBadManifest "/ext"
        { extensions := [axNewMeta], progress := 0, total := 1 }).2.1
      = [] ∧
    (_addExtensions effBadManifest "/ext"
        { extensions := [axNewMeta], progress := 0, total := 1 }).2.2
      = [axNewMeta] :=
  ⟨rfl, rfl, rfl, rfl, rfl⟩

/-- C3 (amended): a record whose download and install succeed but whose
metadata patch fails is appended to `addedErrors`, not to `added` —
metadata-patch failure is fatal to the record's reported success. -/
theorem metadata_failure_fatal (eff : Effects) (extensionsPath : String)
    (opts : ISyncOptions) (item e1 e2 : IExtension) (msg : String)
    (hmem : item ∈ opts.extensions)
    (hdl : (downloadExtension eff item).2 = Except.ok e1)
    (hex : (extractExtension eff extensionsPath e1).2 = Except.ok e2)
    (hmd : (updateMetadata eff (some e2)).2 = Except.error msg) :
    item ∈ (_addExtensions eff extensionsPath opts).2.2 ∧
    item ∉ (_addExtensions eff extensionsPath opts).2.1 := by
  have hfail : addSucceeds eff extensionsPath item = false := by
    simp [addSucceeds, hdl, hex, hmd]
  have e1' : (_addExtensions eff extensionsPath opts).2.1
      = opts.extensions.filter (addSucceeds eff extensionsPath) := by
    rw [addExtensions_snd]
  have e2' : (_addExtensions eff extensionsPath opts).2.2
      = opts.extensions.filter
          (fun i => !(addSucceeds eff extensionsPath i)) := by
    rw [addExtensions_snd]
  rw [e1', e2']
  constructor
  · exact List.mem_filter.mpr ⟨hmem, by simp [hfail]⟩
  · intro hcontra
    have := (List.mem_filter.mp hcontra).2
    rw [hfail] at this
    exact Bool.false_ne_true this

/-- Batch containing the single metadata-carrying record `a.x@2.0`. -/
def optsMF : ISyncOptions :=
  { extensions := [axNewMeta], progress := 0, total := 1 }

theorem metadata_failure_fatal_witness :
    (axNewMeta ∈ optsMF.extensions ∧
      (downloadExtension effBadManifest axNewMeta).2
        = Except.ok axNewMetaZip ∧
      (extractExtension effBadManifest "/ext" axNewMetaZip).2
        = Except.ok axNewMetaInstalled ∧
      (updateMetadata effBadManifest (some axNewMetaInstalled)).2
        = Except.error "Cannot update extension's metadata: a.x.") ∧
    (axNewMeta ∈ (_addExtensions effBadManifest "/ext" optsMF).2.2 ∧
      axNewMeta ∉ (_addExtensions effBadManifest "/ext" optsMF).2.1) :=
  ⟨⟨by decide, rfl, rfl, rfl⟩,
   metadata_failure_fatal effBadManifest "/ext" optsMF axNewMeta
     axNewMetaZip axNewMetaInstalled
     "Cannot update extension's metadata: a.x."
     (by decide) rfl rfl rfl⟩

/-- The event trace of one pass: the three batch traces in
added-updated-removed order, then the indicator clear, then the
`.obsolete` cleanup — whatever the cleanup's outcome. -/
theorem sync_fst (eff : Effects) (reg : List VSCodeExtension)
    (extensionsPath : String) (exts : Option (List IExtension))
    (sh : Bool) :
    (sync eff reg extensionsPath exts sh).1 =
      (_addExtensions eff extensionsPath
        { extensions := (_getDifferentExtensions reg exts).added,
          progress := 0,
          total := (_getDifferentExtensions reg exts).total,
          showIndicator := sh }).1 ++
      (_updateExtensions eff reg extensionsPath
        { extensions := (_getDifferentExtensions reg exts).updated,
          progress := (_getDifferentExtensions reg exts).added.length,
          total := (_getDifferentExtensions reg exts).total,
          showIndicator := sh }).1 ++
      (_removeExtensions eff reg extensionsPath
        { extensions := (_getDifferentExtensions reg exts).removed,
          progress := (_getDifferentExtensions reg exts).added.length +
            (_getDifferentExtensions reg exts).updated.length,
          total := (_getDifferentExtensions reg exts).total,
          showIndicator := sh }).1 ++
      (if sh then [Event.clearSpinner] else []) ++
      [Event.removeDir (pathJoin extensionsPath ".obsolete")] := by
  simp only [sync]
  cases eff.removeDir (pathJoin extensionsPath ".obsolete") <;>
    simp [List.append_assoc]

/-- C9: the sync pass always resolves with exactly the merged
success/error lists of the three batches — per-record failures are
already folded into those lists, and the result is the same whether the
final `.obsolete` cleanup succeeds or fails. -/
theorem sync_resolves_report (eff : Effects) (reg : List VSCodeExtension)
    (extensionsPath : String) (exts : Option (List IExtension))
    (sh : Bool) :
    (sync eff reg extensionsPath exts sh).2 =
      { added := (_addExtensions eff extensionsPath
          { extensions := (_getDifferentExtensions reg exts).added,
            progress := 0,
            total := (_getDifferentExtensions reg exts).total,
            showIndicator := sh }).2.1
        addedErrors := (_addExtensions eff extensionsPath
          { extensions := (_getDifferentExtensions reg exts).added,
            progress := 0,
            total := (_getDifferentExtensions reg exts).total,
            showIndicator := sh }).2.2
        updated := (_updateExtensions eff reg extensionsPath
          { extensions := (_getDifferentExtensions reg exts).updated,
            progress := (_getDifferentExtensions reg exts).added.length,
            total := (_getDifferentExtensions reg exts).total,
            showIndicator := sh }).2.1
        updatedErrors := (_updateExtensions eff reg extensionsPath
          { extensions := (_getDifferentExtensions reg exts).updated,
            progress := (_getDifferentExtensions reg exts).added.length,
            total := (_getDifferentExtensions reg exts).total,
            showIndicator := sh }).2.2
        removed := (_removeExtensions eff reg extensionsPath
          { extensions := (_getDifferentExtensions reg exts).removed,
            progress := (_getDifferentExtensions reg exts).added.length +
              (_getDifferentExtensions reg exts).updated.length,
            total := (_getDifferentExtensions reg exts).total,
            showIndicator := sh }).2.1
        removedErrors := (_removeExtensions eff reg extensionsPath
          { extensions := (_getDifferentExtensions reg exts).removed,
            progress := (_getDifferentExtensions reg exts).added.length +
              (_getDifferentExtensions reg exts).updated.length,
            total := (_getDifferentExtensions reg exts).total,
            showIndicator := sh }).2.2 } := by
  simp only [sync]
  cases eff.removeDir (pathJoin extensionsPath ".obsolete") <;> rfl

/-- C8: one pass runs the three batches strictly in added, updated,
removed order, and within each batch the per-record traces appear
concatenated in the exact order the differ supplied the records,
threading the single shared step counter — no interleaving, no
sorting. -/
theorem sync_sequential_order (eff : Effects)
    (reg : List VSCodeExtension) (extensionsPath : String)
    (exts : Option (List IExtension)) (sh : Bool) :
    (sync eff reg extensionsPath exts sh).1 =
      traceOfBatch
        (fun s i => (addOne eff extensionsPath sh
          (_getDifferentExtensions reg exts).total s i).1)
        (_getDifferentExtensions reg exts).added 0 ++
      traceOfBatch
        (fun s i => (updateOne eff reg extensionsPath sh
          (_getDifferentExtensions reg exts).total s i).1)
        (_getDifferentExtensions reg exts).updated
        (_getDifferentExtensions reg exts).added.length ++
      traceOfBatch
        (fun s i => (removeOne eff reg extensionsPath sh
          (_getDifferentExtensions reg exts).total s i).1)
        (_getDifferentExtensions reg exts).removed
        ((_getDifferentExtensions reg exts).added.length +
          (_getDifferentExtensions reg exts).updated.length) ++
      (if sh then [Event.clearSpinner] else []) ++
      [Event.removeDir (pathJoin extensionsPath ".obsolete")] := by
  rw [sync_fst]
  unfold _addExtensions _updateExtensions _removeExtensions
  rw [eachSeries_fst, eachSeries_fst, eachSeries_fst]

theorem spinnerSteps_append (a b : List Event) :
    spinnerSteps (a ++ b) = spinnerSteps a ++ spinnerSteps b := by
  induction a with
  | nil => simp [spinnerSteps]
  | cons h t ih => cases h <;> simp [spinnerSteps, ih]

theorem spinnerSteps_download (eff : Effects) (i : IExtension) :
    spinnerSteps (downloadExtension eff i).1 = [] := by
  unfold downloadExtension
  cases eff.tmpFile i with
  | error e => simp [spinnerSteps]
  | ok f =>
    cases eff.httpGet i with
    | error e => simp [spinnerSteps]
    | ok u => simp [spinnerSteps]

theorem spinnerSteps_extract (eff : Effects) (extensionsPath : String)
    (i : IExtension) :
    spinnerSteps (extractExtension eff extensionsPath i).1 = [] := by
  unfold extractExtension
  cases ht : truthy i.zip with
  | false => simp [ht, spinnerSteps]
  | true =>
    cases hd : eff.tmpDir i with
    | error e => simp [ht, hd, spinnerSteps]
    | ok dirPath =>
      cases hz : eff.extractZip (i.zip.getD "") dirPath with
      | error e => simp [ht, hd, hz, spinnerSteps]
      | ok u =>
        cases he : eff.emptyDir (extPathOf extensionsPath i) with
        | error e => simp [ht, hd, hz, he, spinnerSteps]
        | ok u2 =>
          cases hc : eff.copy (pathJoin dirPath "extension")
              (extPathOf extensionsPath i) with
          | error e => simp [ht, hd, hz, he, hc, spinnerSteps]
          | ok u3 => simp [ht, hd, hz, he, hc, spinnerSteps]

theorem spinnerSteps_updateMetadata (eff : Effects)
    (x : Option IExtension) :
    spinnerSteps (updateMetadata eff x).1 = [] := by
  unfold updateMetadata
  cases x with
  | none => simp [spinnerSteps]
  | some ext =>
    cases hc : truthy ext.__metadata && truthy ext.path with
    | false => simp [hc, spinnerSteps]
    | true =>
      cases hr : eff.readJson (pathJoin (ext.path.getD "")
          "package.json") with
      | error e => simp [hc, hr, spinnerSteps]
      | ok pkg =>
        cases hw : eff.writeJson (pathJoin (ext.path.getD "")
            "package.json")
            (eff.spreadMetadata pkg (ext.__metadata.getD "")) with
        | error e => simp [hc, hr, hw, spinnerSteps]
        | ok u => simp [hc, hr, hw, spinnerSteps]

theorem spinnerSteps_uninstall (eff : Effects)
    (reg : List VSCodeExtension) (extensionsPath : String)
    (i : IExtension) :
    spinnerSteps (uninstallExtension eff reg extensionsPath i).1 = [] := by
  unfold uninstallExtension
  cases hrm : eff.removeDir (pathJoin extensionsPath
      (i.publisher ++ "." ++ i.name ++ "-"
        ++ match getExtension reg i.id with
           | some localExtension => localExtension.version
           | none => i.version)) with
  | error e => simp [hrm, spinnerSteps]
  | ok u => simp [hrm, spinnerSteps]

/-- With the indicator on, one add-pipeline record reports its own step
value once per sub-step spinner: `addSpinCount` copies of `s`. -/
theorem spinnerSteps_addOne (eff : Effects) (extensionsPath : String)
    (tot s : Nat) (i : IExtension) :
    spinnerSteps (addOne eff extensionsPath true tot s i).1
      = List.replicate (addSpinCount eff i) s := by
  unfold addOne addSpinCount
  cases hd : downloadExtension eff i with
  | mk t1 r1 =>
    have hT1 : spinnerSteps t1 = [] := by
      have h := spinnerSteps_download eff i
      rw [hd] at h
      simpa using h
    cases r1 with
    | error e =>
      simp [spinnerIf, spinnerSteps_append, spinnerSteps, hT1]
    | ok e1 =>
      cases hx : extractExtension eff extensionsPath e1 with
      | mk t2 r2 =>
        have hT2 : spinnerSteps t2 = [] := by
          have h := spinnerSteps_extract eff extensionsPath e1
          rw [hx] at h
          simpa using h
        cases r2 with
        | error e =>
          simp [hx, spinnerIf, spinnerSteps_append, spinnerSteps, hT1, hT2]
        | ok e2 =>
          cases hm : updateMetadata eff (some e2) with
          | mk t3 r3 =>
            have hT3 : spinnerSteps t3 = [] := by
              have h := spinnerSteps_updateMetadata eff (some e2)
              rw [hm] at h
              simpa using h
            cases r3 <;>
              simp [hx, hm, spinnerIf, spinnerSteps_append, spinnerSteps,
                hT1, hT2, hT3]

/-- With the indicator on, one update-pipeline record reports its own
step value `updSpinCount` times. -/
theorem spinnerSteps_updateOne (eff : Effects)
    (reg : List VSCodeExtension) (extensionsPath : String)
    (tot s : Nat) (i : IExtension) :
    spinnerSteps (updateOne eff reg extensionsPath true tot s i).1
      = List.replicate (updSpinCount eff reg extensionsPath i) s := by
  unfold updateOne updSpinCount
  cases hd : downloadExtension eff i with
  | mk t1 r1 =>
    have hT1 : spinnerSteps t1 = [] := by
      have h := spinnerSteps_download eff i
      rw [hd] at h
      simpa using h
    cases r1 with
    | error e =>
      simp [spinnerIf, spinnerSteps_append, spinnerSteps, hT1]
    | ok e1 =>
      cases hu : uninstallExtension eff reg extensionsPath e1 with
      | mk t2 r2 =>
        have hT2 : spinnerSteps t2 = [] := by
          have h := spinnerSteps_uninstall eff reg extensionsPath e1
          rw [hu] at h
          simpa using h
        cases r2 with
        | error e =>
          simp [hu, spinnerIf, spinnerSteps_append, spinnerSteps, hT1, hT2]
        | ok e2 =>
          cases hx : extractExtension eff extensionsPath e2 with
          | mk t3 r3 =>
            have hT3 : spinnerSteps t3 = [] := by
              have h := spinnerSteps_extract eff extensionsPath e2
              rw [hx] at h
              simpa using h
            cases r3 with
            | error e =>
              simp [hu, hx, spinnerIf, spinnerSteps_append, spinnerSteps,
                hT1, hT2, hT3]
            | ok e3 =>
              cases hm : updateMetadata eff (some e3) with
              | mk t4 r4 =>
                have hT4 : spinnerSteps t4 = [] := by
                  have h := spinnerSteps_updateMetadata eff (some e3)
                  rw [hm] at h
                  simpa using h
                cases r4 <;>
                  simp [hu, hx, hm, spinnerIf, spinnerSteps_append,
                    spinnerSteps, hT1, hT2, hT3, hT4]

/-- With the indicator on, one remove-pipeline record reports its own
step value exactly once. -/
theorem spinnerSteps_removeOne (eff : Effects)
    (reg : List VSCodeExtension) (extensionsPath : String)
    (tot s : Nat) (i : IExtension) :
    spinnerSteps (removeOne eff reg extensionsPath true tot s i).1
      = List.replicate 1 s := by
  unfold removeOne
  cases hu : uninstallExtension eff reg extensionsPath i with
  | mk t r =>
    have hT : spinnerSteps t = [] := by
      have h := spinnerSteps_uninstall eff reg extensionsPath i
      rw [hu] at h
      simpa using h
    cases r <;> simp [spinnerIf, spinnerSteps_append, spinnerSteps, hT]

theorem addSpinCount_pos (eff : Effects) (i : IExtension) :
    1 ≤ addSpinCount eff i := by
  unfold addSpinCount
  cases (downloadExtension eff i).2 <;> simp

theorem updSpinCount_pos (eff : Effects) (reg : List VSCodeExtension)
    (extensionsPath : String) (i : IExtension) :
    1 ≤ updSpinCount eff reg extensionsPath i := by
  unfold updSpinCount
  cases hd : (downloadExtension eff i).2 with
  | error e => simp
  | ok e1 =>
    cases hu : (uninstallExtension eff reg extensionsPath e1).2 <;>
      simp [hu]

/-- Spinner steps of a sequential batch whose per-record handler reports
its own step value `c i` times. -/
theorem traceOfBatch_spinner (f : Nat → IExtension → List Event)
    (c : IExtension → Nat)
    (hf : ∀ s i, spinnerSteps (f s i) = List.replicate (c i) s) :
    ∀ (l : List IExtension) (p : Nat),
    spinnerSteps (traceOfBatch f l p) = expectedSteps (l.map c) p := by
  intro l
  induction l with
  | nil => intro p; simp [traceOfBatch, expectedSteps, spinnerSteps]
  | cons i rest ih =>
    intro p
    simp [traceOfBatch, expectedSteps, spinnerSteps_append, hf, ih]

theorem expectedSteps_append (c1 c2 : List Nat) :
    ∀ p, expectedSteps (c1 ++ c2) p
      = expectedSteps c1 p ++ expectedSteps c2 (p + c1.length) := by
  induction c1 with
  | nil => intro p; simp [expectedSteps]
  | cons c rest ih =>
    intro p
    have h1 : expectedSteps ((c :: rest) ++ c2) p
        = List.replicate c (p + 1) ++ expectedSteps (rest ++ c2) (p + 1) :=
      rfl
    have h2 : expectedSteps (c :: rest) p
        = List.replicate c (p + 1) ++ expectedSteps rest (p + 1) := rfl
    rw [h1, ih (p + 1), h2, List.append_assoc]
    have h3 : p + 1 + rest.length = p + (c :: rest).length := by
      simp only [List.length_cons]
      omega
    rw [h3]

theorem expectedSteps_mem (counts : List Nat) :
    ∀ (p x : Nat), x ∈ expectedSteps counts p → p + 1 ≤ x := by
  induction counts with
  | nil => intro p x h; simp [expectedSteps] at h
  | cons c rest ih =>
    intro p x h
    simp only [expectedSteps, List.mem_append, List.mem_replicate] at h
    rcases h with ⟨_, rfl⟩ | h
    · omega
    · have := ih (p + 1) x h
      omega

theorem chain_le_replicate (n a : Nat) :
    List.Chain' (fun x y => x ≤ y) (List.replicate n a) := by
  induction n with
  | zero => simp
  | succ n ih =>
    rw [List.replicate_succ, List.chain'_cons']
    refine ⟨?_, ih⟩
    intro y hy
    have hmem : y ∈ List.replicate n a := List.mem_of_mem_head? hy
    have : y = a := List.eq_of_mem_replicate hmem
    omega

/-- The step sequence of a pass is non-decreasing. -/
theorem expectedSteps_chain (counts : List Nat) :
    ∀ p, List.Chain' (fun x y => x ≤ y) (expectedSteps counts p) := by
  induction counts with
  | nil => intro p; simp [expectedSteps]
  | cons c rest ih =>
    intro p
    rw [show expectedSteps (c :: rest) p
      = List.replicate c (p + 1) ++ expectedSteps rest (p + 1) from rfl]
    rw [List.chain'_append]
    refine ⟨chain_le_replicate c (p + 1), ih (p + 1), ?_⟩
    intro x hx y hy
    have hx' : x = p + 1 :=
      List.eq_of_mem_replicate (List.mem_of_mem_getLast? hx)
    have hy' : p + 2 ≤ y :=
      expectedSteps_mem rest (p + 1) y (List.mem_of_mem_head? hy)
    omega

theorem compress_replicate_append (a : Nat) (l : List Nat)
    (hhead : ∀ x ∈ l.head?, x ≠ a) :
    ∀ c, 1 ≤ c → compress (List.replicate c a ++ l) = a :: compress l := by
  intro c
  induction c with
  | zero => intro h; omega
  | succ c ih =>
    intro _
    cases c with
    | zero =>
      simp only [List.replicate_succ, List.replicate_zero,
        List.nil_append, List.cons_append]
      cases l with
      | nil => rfl
      | cons b t =>
        have hab : a ≠ b := by
          intro h
          exact hhead b (by simp) h.symm
        rw [show compress (a :: b :: t)
          = if a = b then compress (b :: t) else a :: compress (b :: t)
          from rfl]
        rw [if_neg hab]
    | succ m =>
      rw [List.replicate_succ, List.cons_append, List.replicate_succ,
        List.cons_append]
      rw [show compress (a :: a :: (List.replicate m a ++ l))
        = if a = a then compress (a :: (List.replicate m a ++ l))
          else a :: compress (a :: (List.replicate m a ++ l)) from rfl]
      rw [if_pos rfl]
      have := ih (by omega)
      rw [List.replicate_succ, List.cons_append] at this
      exact this

/-- With at least one spinner per record, the distinct step values of a
batch starting at offset `p` with `n` records are exactly
`p+1, …, p+n`. -/
theorem compress_expectedSteps (counts : List Nat)
    (hc : ∀ c ∈ counts, 1 ≤ c) :
    ∀ p, compress (expectedSteps counts p)
      = List.range' (p + 1) counts.length := by
  induction counts with
  | nil => intro p; simp [expectedSteps, compress]
  | cons c rest ih =>
    intro p
    rw [show expectedSteps (c :: rest) p
      = List.replicate c (p + 1) ++ expectedSteps rest (p + 1) from rfl]
    rw [compress_replicate_append (p + 1) (expectedSteps rest (p + 1))
      (fun x hx => by
        have := expectedSteps_mem rest (p + 1) x (List.mem_of_mem_head? hx)
        omega)
      c (hc c (by simp))]
    rw [ih (fun d hd => hc d (by simp [hd])) (p + 1)]
    rw [show List.range' (p + 1) (c :: rest).length
      = (p + 1) :: List.range' (p + 2) rest.length from rfl]

/-- C7: with the indicator shown, the step values reported across one
whole pass are non-decreasing, each attempted record contributes exactly
one fresh step value (its sub-step spinners repeat it), and the distinct
values are exactly `1, …, total`: the counter reaches `total` precisely
on the last record after every record of the three batches has been
attempted, with the batches starting at offsets `0`, `added.length` and
`added.length + updated.length`. -/
theorem sync_progress_monotone (eff : Effects)
    (reg : List VSCodeExtension) (extensionsPath : String)
    (exts : Option (List IExtension)) :
    List.Chain' (fun a b => a ≤ b)
      (spinnerSteps (sync eff reg extensionsPath exts true).1) ∧
    compress (spinnerSteps (sync eff reg extensionsPath exts true).1)
      = List.range' 1 (_getDifferentExtensions reg exts).total := by
  have key : spinnerSteps (sync eff reg extensionsPath exts true).1
      = expectedSteps
          ((_getDifferentExtensions reg exts).added.map (addSpinCount eff)
            ++ ((_getDifferentExtensions reg exts).updated.map
                  (updSpinCount eff reg extensionsPath)
              ++ (_getDifferentExtensions reg exts).removed.map
                  (fun _ => 1))) 0 := by
    rw [sync_sequential_order]
    rw [spinnerSteps_append, spinnerSteps_append, spinnerSteps_append,
      spinnerSteps_append]
    rw [traceOfBatch_spinner _ (addSpinCount eff)
      (spinnerSteps_addOne eff extensionsPath
        (_getDifferentExtensions reg exts).total)]
    rw [traceOfBatch_spinner _ (updSpinCount eff reg extensionsPath)
      (spinnerSteps_updateOne eff reg extensionsPath
        (_getDifferentExtensions reg exts).total)]
    rw [traceOfBatch_spinner _ (fun _ => 1)
      (spinnerSteps_removeOne eff reg extensionsPath
        (_getDifferentExtensions reg exts).total)]
    rw [expectedSteps_append, expectedSteps_append]
    simp [spinnerSteps, List.length_map]
  have hpos : ∀ c ∈ (_getDifferentExtensions reg exts).added.map
        (addSpinCount eff)
      ++ ((_getDifferentExtensions reg exts).updated.map
            (updSpinCount eff reg extensionsPath)
        ++ (_getDifferentExtensions reg exts).removed.map
            (fun _ => 1)), 1 ≤ c := by
    intro c hc
    simp only [List.mem_append, List.mem_map] at hc
    rcases hc with ⟨i, _, rfl⟩ | ⟨i, _, rfl⟩ | ⟨i, _, rfl⟩
    · exact addSpinCount_pos eff i
    · exact updSpinCount_pos eff reg extensionsPath i
    · exact Nat.le_refl 1
  constructor
  · rw [key]
    exact expectedSteps_chain _ 0
  · rw [key]
    rw [compress_expectedSteps _ hpos 0]
    congr 1
    simp only [List.length_append, List.length_map,
      ExtensionDelta.total]
    omega

/-- C10: `updateMetadata` resolves successfully with an empty effect
trace — reading and writing nothing — whenever the record is absent or
its metadata blob or install path is missing; and whenever it performs
any filesystem operation at all, both the metadata blob and the install
path were (truthily) present.  In particular a record carrying metadata
but no install path silently succeeds without the metadata being
persisted. -/
theorem updateMetadata_noop (eff : Effects) (ext : IExtension)
    (h : ext.__metadata = none ∨ ext.path = none) :
    updateMetadata eff (some ext) = ([], Except.ok ()) ∧
    updateMetadata eff none = ([], Except.ok ()) ∧
    ∀ e : IExtension, (updateMetadata eff (some e)).1 ≠ [] →
      truthy e.__metadata = true ∧ truthy e.path = true := by
  refine ⟨?_, rfl, ?_⟩
  · unfold updateMetadata
    have hcond : (truthy ext.__metadata && truthy ext.path) = false := by
      rcases h with h | h <;> simp [h, truthy]
    simp [hcond]
  · intro e htrace
    cases hc : truthy e.__metadata && truthy e.path with
    | false =>
      exfalso
      apply htrace
      unfold updateMetadata
      simp [hc]
    | true =>
      have := hc
      rw [Bool.and_eq_true] at this
      exact this

theorem updateMetadata_noop_witness :
    (axNewMeta.__metadata = none ∨ axNewMeta.path = none) ∧
    (updateMetadata effOk (some axNewMeta) = ([], Except.ok ()) ∧
      updateMetadata effOk none = ([], Except.ok ()) ∧
      ∀ e : IExtension, (updateMetadata effOk (some e)).1 ≠ [] →
        truthy e.__metadata = true ∧ truthy e.path = true) :=
  ⟨Or.inr rfl, updateMetadata_noop effOk axNewMeta (Or.inr rfl)⟩

end VSCodeSyncing
